import Mathlib

/-!
# Verification of the Ultimate Tic-Tac-Toe search engine

A shallow embedding of `src/Rust/ut3b2l/src/main.rs`.

The board is a triple of `u64` words `(us, them, share)`; machine words are
modelled by `Nat` (every bit operation of the source stays inside 64 bits,
and bitwise `&&&`/`|||`/`>>>`/`<<<` on `Nat` agree with the `u64` versions
on in-range values, so no explicit truncation is needed except for the
complement mask `EXCLZONE`, which is spelled as the 64-bit complement).
Signed `i32` scores are modelled by `Int` (all scores stay far inside the
`i32` range).

The two evaluation tables built by `init()` are modelled functionally:
`init` writes index `(them <<< 9) ||| us` exactly once for every pair
`us, them < 512`, so the vector entry at `idx` is the value computed for
the pair `(idx &&& 511, idx >>> 9)`.
-/

namespace UT3

/-- The packed bitboard: `(us, them, share)`. -/
abbrev Board := Nat × Nat × Nat

-- Weights for representing win, loss and draw outcomes.
def OUTCOME_WIN : Int := 1000000
def OUTCOME_DRAW : Int := 0
def OUTCOME_LOSS : Int := -1000000

-- Weights for line scoring.
def BIG_TWO_COUNT : Int := 90
def BIG_ONE_COUNT : Int := 20
def SMALL_TWO_COUNT : Int := 8
def SMALL_ONE_COUNT : Int := 1

-- Weights for positional scoring.
def CENTRE : Int := 9
def CORNER : Int := 7
def EDGE : Int := 5
def SQ_BIG : Int := 25

-- Internal representation for `zone` outside the 0-8 range: play anywhere.
def ZONE_ANY : Nat := 9

-- Masks for use in changing bitboards.
def LINE : Nat := 0b111
def CHUNK : Nat := 0b111111111
def DBLCHUNK : Nat := (CHUNK <<< 9) ||| CHUNK
/-- `!(0b1111u64 << 54)`: the 64-bit complement of the next-zone field. -/
def EXCLZONE : Nat := (2 ^ 64 - 1) ^^^ (0b1111 <<< 54)
def CORNER_MASK : Nat := 0b101000101
def EDGE_MASK : Nat := 0b010101010
def CENTRE_MASK : Nat := 0b000010000

-- 81 is used to represent a "null move"; real moves are in `[0, 81)`.
def NULL_MOVE : Nat := 81

-- The absolute upper bound of total plies for this game.
def MAX_PLY : Nat := 81

/-- `toggle_shift(side, num)`: either the given number or `0`. -/
def toggle_shift (side : Bool) (num : Nat) : Nat :=
  if side then num else 0

/-- `toggle_eval(side, num)`: either the given number or its negative. -/
def toggle_eval (side : Bool) (num : Int) : Int :=
  if side then -num else num

/-- `lines(grid)`: a 24-bit value, eight 3-bit fields, one per line of the
3×3 grid, each holding the occupancy pattern of that line. -/
def lines (grid : Nat) : Nat :=
  0b000100000000100000000100 * (grid &&& 1)
  + 0b000000000000010000100000 * ((grid >>> 1) &&& 1)
  + 0b100000000000001100000000 * ((grid >>> 2) &&& 1)
  + 0b000000000100000000000010 * ((grid >>> 3) &&& 1)
  + 0b010010000010000000010000 * ((grid >>> 4) &&& 1)
  + 0b000000000001000010000000 * ((grid >>> 5) &&& 1)
  + 0b001000100000000000000001 * ((grid >>> 6) &&& 1)
  + 0b000000010000000000001000 * ((grid >>> 7) &&& 1)
  + 0b000001001000000001000000 * ((grid >>> 8) &&& 1)

/-- `line_presence(grid)`: whether some line of the 3×3 grid is fully
occupied. -/
def line_presence (grid : Nat) : Bool :=
  0 ≠ ((0b10110110 ||| ((grid &&& 1) * 0xff))
    &&& (0b11101110 ||| (((grid >>> 1) &&& 1) * 0xff))
    &&& (0b01011110 ||| (((grid >>> 2) &&& 1) * 0xff))
    &&& (0b11110101 ||| (((grid >>> 3) &&& 1) * 0xff))
    &&& (0b00101101 ||| (((grid >>> 4) &&& 1) * 0xff))
    &&& (0b11011101 ||| (((grid >>> 5) &&& 1) * 0xff))
    &&& (0b01110011 ||| (((grid >>> 6) &&& 1) * 0xff))
    &&& (0b11101011 ||| (((grid >>> 7) &&& 1) * 0xff))
    &&& (0b10011011 ||| (((grid >>> 8) &&& 1) * 0xff)))

/-- The `pop_count` lookup table of `init()`: number of set bits among the
low nine bits. -/
def popCount9 (i : Nat) : Nat :=
  (List.range 9).foldl (fun acc j => acc + ((i >>> j) &&& 1)) 0

/-- The `match us_count { 2 => BIG_TWO_COUNT, 1 => BIG_ONE_COUNT, _ => 0 }`
expression of `init()`. -/
def big_count_score (n : Nat) : Int :=
  match n with
  | 2 => BIG_TWO_COUNT
  | 1 => BIG_ONE_COUNT
  | _ => 0

/-- The `match us_count { 2 => SMALL_TWO_COUNT, 1 => SMALL_ONE_COUNT, _ => 0 }`
expression of `init()`. -/
def small_count_score (n : Nat) : Int :=
  match n with
  | 2 => SMALL_TWO_COUNT
  | 1 => SMALL_ONE_COUNT
  | _ => 0

/-- The per-line loop of `init()`: walks the eight 3-bit fields of
`lines us` / `lines them`, accumulating `(eval_large, eval_small)` and
stopping early with `us_won` / `them_won` on a completed line. -/
def line_scores : List Nat → Nat → Nat → Int → Int → Int × Int × Bool × Bool
  | [], _, _, el, es => (el, es, false, false)
  | i :: rest, us_lines, them_lines, el, es =>
    let us_count := popCount9 ((us_lines >>> i) &&& LINE)
    let them_count := popCount9 ((them_lines >>> i) &&& LINE)
    if us_count ≠ 0 ∧ them_count ≠ 0 then
      line_scores rest us_lines them_lines el es
    else if us_count = 3 then
      (el, es, true, false)
    else if them_count = 3 then
      (el, es, false, true)
    else
      line_scores rest us_lines them_lines
        (el + big_count_score us_count - big_count_score them_count)
        (es + small_count_score us_count - small_count_score them_count)

/-- `(0..24).step_by(3)`: the eight field offsets of `lines`. -/
def fieldOffsets : List Nat := [0, 3, 6, 9, 12, 15, 18, 21]

/-- The positional score of `init()` for the pair `(us, them)`. -/
def eval_pos (us them : Nat) : Int :=
  CORNER * ((popCount9 (us &&& CORNER_MASK) : Int) - (popCount9 (them &&& CORNER_MASK) : Int))
  + EDGE * ((popCount9 (us &&& EDGE_MASK) : Int) - (popCount9 (them &&& EDGE_MASK) : Int))
  + CENTRE * ((popCount9 (us &&& CENTRE_MASK) : Int) - (popCount9 (them &&& CENTRE_MASK) : Int))

/-- The `(EVAL_LARGE, EVAL_SMALL)` entry `init()` computes for the pair
`(us, them)` and stores at index `(them <<< 9) ||| us`. -/
def tableEntry (us them : Nat) : Int × Int :=
  let r := line_scores fieldOffsets (lines us) (lines them) 0 0
  let eval_large := r.1
  let eval_small := r.2.1
  let us_won := r.2.2.1
  let them_won := r.2.2.2
  if us_won then (OUTCOME_WIN, 0)
  else if them_won then (OUTCOME_LOSS, 0)
  else if popCount9 (us ||| them) = 9 then (OUTCOME_DRAW, 0)
  else (eval_large + eval_pos us them * SQ_BIG, eval_small + eval_pos us them)

/-- The table `tables.0` built by `init()`, as a function of the index. -/
def EVAL_LARGE (idx : Nat) : Int := (tableEntry (idx &&& 511) (idx >>> 9)).1

/-- The table `tables.1` built by `init()`, as a function of the index. -/
def EVAL_SMALL (idx : Nat) : Int := (tableEntry (idx &&& 511) (idx >>> 9)).2

/-- `generate_moves(board)`: the legal cell indices in ascending order
(the source's lazy iterator, materialised as the list it yields). -/
def generate_moves (board : Board) : List Nat :=
  let us := board.1
  let them := board.2.1
  let share := board.2.2
  if line_presence (share >>> 36) || line_presence (share >>> 45) then []
  else
    let zone := (share >>> 54) &&& 0b1111
    if zone = ZONE_ANY then
      let nw_to_sw := us ||| them
      let s_to_se := (share >>> 18) ||| share
      let large := (share >>> 36) ||| (share >>> 45)
      ((List.range 63).filter fun i =>
          decide (((nw_to_sw >>> i) &&& 1) = 0 ∧ ((large >>> (i / 9)) &&& 1) = 0))
        ++ (((List.range 18).map (· + 63)).filter fun i =>
          decide (((s_to_se >>> (i - 63)) &&& 1) = 0 ∧ ((large >>> (i / 9)) &&& 1) = 0))
    else if zone = 7 ∨ zone = 8 then
      let s_to_se := (share >>> 18) ||| share
      ((List.range 9).map (9 * zone + ·)).filter fun i =>
        decide (((s_to_se >>> (i - 63)) &&& 1) = 0)
    else
      let nw_to_sw := us ||| them
      ((List.range 9).map (9 * zone + ·)).filter fun i =>
        decide (((nw_to_sw >>> i) &&& 1) = 0)

/-- `play_move(board, mv, side)`: the successor board. The first `if` chain
mirrors the source's step 1 and 2 read of `line_occupancy`; the tuple
carries the mutated copies of `us`, `them`, `share` together with the
`line_occupancy` flag. -/
def play_move (board : Board) (mv : Nat) (side : Bool) : Board :=
  let us := board.1
  let them := board.2.1
  let share := board.2.2
  let step :=
    if mv > 62 then
      let share2 := share ||| (1 <<< (mv - 63 + toggle_shift side 18))
      (us, them, share2,
        line_presence (share2 >>> (9 * (mv / 9) - 63 + toggle_shift side 18)))
    else if !side then
      let us2 := us ||| (1 <<< mv)
      (us2, them, share, line_presence (us2 >>> (9 * (mv / 9))))
    else
      let them2 := them ||| (1 <<< mv)
      (us, them2, share, line_presence (them2 >>> (9 * (mv / 9))))
  let us1 := step.1
  let them1 := step.2.1
  let share1 := step.2.2.1
  let line_occupancy := step.2.2.2
  let share3 :=
    if line_occupancy then share1 ||| (1 <<< (36 + toggle_shift side 9 + mv / 9))
    else share1
  let next_chunk :=
    if mv % 9 > 6 then ((share3 ||| (share3 >>> 18)) >>> (9 * ((mv % 9) - 7))) &&& CHUNK
    else ((us1 ||| them1) >>> (9 * (mv % 9))) &&& CHUNK
  let zone :=
    if next_chunk = CHUNK ∨ (((share3 ||| (share3 >>> 9)) >>> (36 + mv % 9)) &&& 1) = 1
    then ZONE_ANY
    else mv % 9
  (us1, them1, (share3 &&& EXCLZONE) ||| (zone <<< 54))

/-- `evaluate(board, side, tables)`: the static heuristic score. -/
def evaluate (board : Board) (side : Bool) : Int :=
  let us := board.1
  let them := board.2.1
  let share := board.2.2
  let eval := EVAL_LARGE ((share >>> 36) &&& DBLCHUNK)
  if eval = OUTCOME_WIN ∨ eval = OUTCOME_LOSS then toggle_eval side eval
  else
    let large := ((share >>> 36) ||| (share >>> 45)) &&& CHUNK
    if large = CHUNK then OUTCOME_DRAW
    else
      toggle_eval side
        ((((List.range 7).map fun i =>
            let us_data := (us >>> (9 * i)) &&& CHUNK
            let them_data := (them >>> (9 * i)) &&& CHUNK
            if ((large >>> i) &&& 1) = 1 ∨ (us_data ||| them_data) = CHUNK then 0
            else EVAL_SMALL ((them_data <<< 9) ||| us_data))
          ++ ((List.range 2).map fun j =>
            let i := j + 7
            let us_data := (share >>> (9 * i - 63)) &&& CHUNK
            let them_data := (share >>> (9 * i - 45)) &&& CHUNK
            if ((large >>> i) &&& 1) = 1 ∨ (us_data ||| them_data) = CHUNK then 0
            else EVAL_SMALL ((them_data <<< 9) ||| us_data))).foldl (· + ·) eval)

/-- The all-null principal variation `[NULL_MOVE; MAX_PLY]`. -/
def nullPV : List Nat := List.replicate MAX_PLY NULL_MOVE

/-- The move loop of `alpha_beta`: `next` is the recursive search one ply
deeper, `idx` is `max_depth - depth`, and the two accumulators are the
running `alpha` and PV. -/
def ab_loop (next : Board → Bool → Int → Int → Int × List Nat)
    (board : Board) (side : Bool) (idx : Nat) (beta : Int) :
    List Nat → Int → List Nat → Int × List Nat
  | [], alpha, pv => (alpha, pv)
  | mv :: rest, alpha, pv =>
    let r := next (play_move board mv side) (!side) (-beta) (-alpha)
    let e := -r.1
    let line := r.2.set idx mv
    if e ≥ beta then (beta, line)
    else if e > alpha then ab_loop next board side idx beta rest e line
    else ab_loop next board side idx beta rest alpha pv

/-- `alpha_beta(board, side, depth, alpha, beta, tables, max_depth)`:
fail-hard negamax returning `(score, pv)`. -/
def alpha_beta (board : Board) (side : Bool) (depth : Nat)
    (alpha beta : Int) (max_depth : Nat) : Int × List Nat :=
  match depth with
  | 0 => (evaluate board side, nullPV)
  | d + 1 =>
    match generate_moves board with
    | [] =>
      let e := toggle_eval side (EVAL_LARGE ((board.2.2 >>> 36) &&& DBLCHUNK))
      if e = OUTCOME_WIN then (e - ((max_depth - (d + 1) : Nat) : Int), nullPV)
      else if e = OUTCOME_LOSS then (e + ((max_depth - (d + 1) : Nat) : Int), nullPV)
      else (OUTCOME_DRAW, nullPV)
    | mv :: rest =>
      ab_loop (fun b s a bt => alpha_beta b s d a bt max_depth)
        board side (max_depth - (d + 1)) beta (mv :: rest) alpha nullPV

/-!
## Specification-side definitions

These follow the spec's words (not the source) and are only used to state
claims against the source-derived definitions above.
-/

/-- Spec 4.1: some 3-bit field of `lines grid` equals `0b111`. -/
def has_full_line (grid : Nat) : Bool :=
  fieldOffsets.any fun i => ((lines grid >>> i) &&& LINE) == 0b111

/-- Spec 4.3 step 3: zone `t` of `board` is completely occupied, or its
meta bit is set for either player. -/
def zone_blocked (board : Board) (t : Nat) : Bool :=
  decide ((if 6 < t then ((board.2.2 ||| (board.2.2 >>> 18)) >>> (9 * (t - 7))) &&& CHUNK
           else ((board.1 ||| board.2.1) >>> (9 * t)) &&& CHUNK) = CHUNK)
  || board.2.2.testBit (36 + t) || board.2.2.testBit (45 + t)

/-- Number of cells of player X: set bits of `us` plus the low 18-bit half
of `share`. -/
def x_cell_count (board : Board) : Nat :=
  (∑ i ∈ Finset.range 64, (board.1.testBit i).toNat) +
  (∑ i ∈ Finset.range 18, (board.2.2.testBit i).toNat)

/-- Number of cells of player O: set bits of `them` plus the high 18-bit
half of `share` (bits 18..35). -/
def o_cell_count (board : Board) : Nat :=
  (∑ i ∈ Finset.range 64, (board.2.1.testBit i).toNat) +
  (∑ i ∈ Finset.range 18, (board.2.2.testBit (18 + i)).toNat)

/-- The three cells forming the line whose field offset in `lines` is `i`. -/
def lineCellsOf (i : Nat) : List Nat :=
  match i with
  | 0 => [0, 3, 6]
  | 3 => [1, 4, 7]
  | 6 => [2, 5, 8]
  | 9 => [0, 1, 2]
  | 12 => [3, 4, 5]
  | 15 => [6, 7, 8]
  | 18 => [0, 4, 8]
  | 21 => [2, 4, 6]
  | _ => []

-- Sanity checks on concrete values (X owns the top row: a won grid).
example : line_presence 0b111 = true := by decide
example : line_presence 0b110 = false := by decide
example : EVAL_LARGE ((0 <<< 9) ||| 0b111) = OUTCOME_WIN := by decide
example : EVAL_LARGE ((0b111 <<< 9) ||| 0) = OUTCOME_LOSS := by decide
example : EVAL_LARGE 0 = 0 := by decide
example : EVAL_SMALL ((0 <<< 9) ||| 0b10000) = SMALL_ONE_COUNT * 4 + CENTRE := by decide
example : generate_moves (0, 0, 9 <<< 54) = List.range 81 := by decide
example : generate_moves (0, 0, 0) = List.range 9 := by decide
example : play_move (0, 0, 9 <<< 54) 40 false = (1 <<< 40, 0, 4 <<< 54) := by decide
example : evaluate (0, 0, 9 <<< 54) false = 0 := by decide
example : alpha_beta (0, 0, (0b111 <<< 36) ||| (9 <<< 54)) false 1 OUTCOME_LOSS OUTCOME_WIN 1
    = (OUTCOME_WIN, nullPV) := by decide
example : alpha_beta (226, 284, 0) false 1 1 2 1 = (1, nullPV) := by decide

/-!
## Bit-level helper lemmas

`play_move` finishes with `(share3 &&& EXCLZONE) ||| (zone <<< 54)`: the
lemmas here show this write touches only bits 54..57, and extract the
written zone back out.
-/

lemma and_one_shiftRight_eq_one_iff (y k : Nat) :
    ((y >>> k) &&& 1) = 1 ↔ y.testBit k = true := by
  rw [Nat.and_one_is_mod, Nat.shiftRight_eq_div_pow, Nat.testBit_to_div_mod]
  simp

lemma and_one_shiftRight_eq_zero_iff (y k : Nat) :
    ((y >>> k) &&& 1) = 0 ↔ y.testBit k = false := by
  rw [Nat.and_one_is_mod, Nat.shiftRight_eq_div_pow, Nat.testBit_to_div_mod]
  simp

lemma testBit_15 (i : Nat) : Nat.testBit 15 i = decide (i < 4) := by
  rw [show (15 : Nat) = 2 ^ 4 - 1 from by norm_num, Nat.testBit_two_pow_sub_one]

lemma testBit_511 (i : Nat) : Nat.testBit 511 i = decide (i < 9) := by
  rw [show (511 : Nat) = 2 ^ 9 - 1 from by norm_num, Nat.testBit_two_pow_sub_one]

lemma EXCLZONE_testBit (j : Nat) :
    EXCLZONE.testBit j =
      (decide (j < 64) ^^ (decide (54 ≤ j) && Nat.testBit 15 (j - 54))) := by
  rw [show EXCLZONE = (2 ^ 64 - 1) ^^^ (15 <<< 54) from rfl, Nat.testBit_xor,
    Nat.testBit_two_pow_sub_one, Nat.testBit_shiftLeft]

lemma EXCLZONE_testBit_low (j : Nat) (hj : j < 54) : EXCLZONE.testBit j = true := by
  rw [EXCLZONE_testBit]
  have h1 : j < 64 := by omega
  have h2 : ¬ (54 ≤ j) := by omega
  simp [h1, h2]

lemma EXCLZONE_testBit_mid (j : Nat) (h1 : 54 ≤ j) (h2 : j < 58) :
    EXCLZONE.testBit j = false := by
  rw [EXCLZONE_testBit, testBit_15]
  have h3 : j < 64 := by omega
  have h4 : j - 54 < 4 := by omega
  simp [h1, h3, h4]

/-- Bits below 54 pass through the final `share` write of `play_move`. -/
lemma masked_or_testBit_low (x z j : Nat) (hj : j < 54) :
    ((x &&& EXCLZONE) ||| (z <<< 54)).testBit j = x.testBit j := by
  have h54 : ¬ (54 ≤ j) := by omega
  simp [Nat.testBit_or, Nat.testBit_and, Nat.testBit_shiftLeft,
    EXCLZONE_testBit_low j hj, h54]

/-- Extracting the next-zone field after the final `share` write yields the
written zone. -/
lemma zone_field_extract (x z : Nat) (hz : z < 16) :
    ((((x &&& EXCLZONE) ||| (z <<< 54)) >>> 54) &&& 0b1111) = z := by
  apply Nat.eq_of_testBit_eq
  intro i
  rw [Nat.testBit_and, Nat.testBit_shiftRight, show ((0b1111 : Nat) = 15) from rfl,
    testBit_15]
  by_cases hi : i < 4
  · have h1 : (54 : Nat) ≤ 54 + i := by omega
    have h2 : 54 + i < 58 := by omega
    have h3 : 54 + i - 54 = i := by omega
    simp [Nat.testBit_or, Nat.testBit_and, Nat.testBit_shiftLeft,
      EXCLZONE_testBit_mid _ h1 h2, h1, h3, hi]
  · have hz' : z < 2 ^ i := by
      calc z < 16 := hz
      _ = 2 ^ 4 := by norm_num
      _ ≤ 2 ^ i := Nat.pow_le_pow_right (by norm_num) (by omega)
    simp [hi, Nat.testBit_lt_two_pow hz']

/-- The 9-bit occupancy read of zones 7/8 is unchanged by the final `share`
write of `play_move`. -/
lemma chunk_read_eq (x z t : Nat) (h7 : 7 ≤ t) (h8 : t ≤ 8) :
    ((((x &&& EXCLZONE) ||| (z <<< 54)) |||
        (((x &&& EXCLZONE) ||| (z <<< 54)) >>> 18)) >>> (9 * (t - 7))) &&& CHUNK
      = ((x ||| (x >>> 18)) >>> (9 * (t - 7))) &&& CHUNK := by
  set y := (x &&& EXCLZONE) ||| (z <<< 54) with hy
  have hb : ∀ j, j < 54 → y.testBit j = x.testBit j := by
    intro j hj
    rw [hy]
    exact masked_or_testBit_low x z j hj
  apply Nat.eq_of_testBit_eq
  intro i
  rw [show (CHUNK : Nat) = 511 from rfl]
  simp only [Nat.testBit_and, Nat.testBit_shiftRight, Nat.testBit_or, testBit_511]
  by_cases hi : i < 9
  · have p1 : 9 * (t - 7) + i < 54 := by omega
    have p2 : 18 + (9 * (t - 7) + i) < 54 := by omega
    rw [hb _ p1, hb _ p2]
  · simp [hi]

/-- The source's meta-bit read of the target zone, as two `testBit`s. -/
lemma meta_read_iff (x t : Nat) :
    (((x ||| (x >>> 9)) >>> (36 + t)) &&& 1) = 1 ↔
      (x.testBit (36 + t) = true ∨ x.testBit (45 + t) = true) := by
  rw [and_one_shiftRight_eq_one_iff]
  have h9 : 9 + (36 + t) = 45 + t := by omega
  simp [Nat.testBit_or, Nat.testBit_shiftRight, h9]

/-- The condition `zone_blocked` reads off the returned board coincides
with the condition `play_move` branched on, for any written zone `z`. -/
lemma zone_cond_iff (u1 t1 s3 t z : Nat) (ht : t < 9) :
    (zone_blocked (u1, t1, (s3 &&& EXCLZONE) ||| (z <<< 54)) t = true) ↔
      ((if 6 < t then ((s3 ||| (s3 >>> 18)) >>> (9 * (t - 7))) &&& CHUNK
        else ((u1 ||| t1) >>> (9 * t)) &&& CHUNK) = CHUNK
       ∨ (((s3 ||| (s3 >>> 9)) >>> (36 + t)) &&& 1) = 1) := by
  have hm1 : ((s3 &&& EXCLZONE) ||| (z <<< 54)).testBit (36 + t) = s3.testBit (36 + t) :=
    masked_or_testBit_low s3 z (36 + t) (by omega)
  have hm2 : ((s3 &&& EXCLZONE) ||| (z <<< 54)).testBit (45 + t) = s3.testBit (45 + t) :=
    masked_or_testBit_low s3 z (45 + t) (by omega)
  simp only [zone_blocked, Bool.or_eq_true, decide_eq_true_eq, hm1, hm2,
    meta_read_iff s3 t]
  by_cases h6 : 6 < t
  · rw [if_pos h6, if_pos h6, chunk_read_eq s3 z t (by omega) (by omega)]
    tauto
  · rw [if_neg h6, if_neg h6]
    tauto

/-- The final `share` write of `play_move`, checked against the
`zone_blocked` read of the written board, for arbitrary updated words
`u1`, `t1`, `s3`. -/
lemma zone_write_rule (u1 t1 s3 t : Nat) (ht : t < 9) :
    ((((s3 &&& EXCLZONE) |||
        ((if ((if 6 < t then ((s3 ||| (s3 >>> 18)) >>> (9 * (t - 7))) &&& CHUNK
               else ((u1 ||| t1) >>> (9 * t)) &&& CHUNK) = CHUNK
              ∨ (((s3 ||| (s3 >>> 9)) >>> (36 + t)) &&& 1) = 1)
          then ZONE_ANY else t) <<< 54)) >>> 54) &&& 0b1111)
      = if zone_blocked
            (u1, t1, (s3 &&& EXCLZONE) |||
              ((if ((if 6 < t then ((s3 ||| (s3 >>> 18)) >>> (9 * (t - 7))) &&& CHUNK
                     else ((u1 ||| t1) >>> (9 * t)) &&& CHUNK) = CHUNK
                    ∨ (((s3 ||| (s3 >>> 9)) >>> (36 + t)) &&& 1) = 1)
                then ZONE_ANY else t) <<< 54)) t
        then ZONE_ANY else t := by
  set C := ((if 6 < t then ((s3 ||| (s3 >>> 18)) >>> (9 * (t - 7))) &&& CHUNK
             else ((u1 ||| t1) >>> (9 * t)) &&& CHUNK) = CHUNK
            ∨ (((s3 ||| (s3 >>> 9)) >>> (36 + t)) &&& 1) = 1) with hCdef
  have hz16 : (if C then ZONE_ANY else t) < 16 := by
    split
    · norm_num [ZONE_ANY]
    · omega
  rw [zone_field_extract s3 (if C then ZONE_ANY else t) hz16]
  exact if_congr ((zone_cond_iff u1 t1 s3 t (if C then ZONE_ANY else t) ht).symm) rfl rfl

/-!
## Claim C1
-/

/-- Claim C1, as stated, is false on the code: on the board where zone NW
holds X = {1,5,6,7} and O = {2,3,4,8} with next zone NW, the legal move 0
fills zone NW; the pre-move board has zone 0 neither full nor meta-won
(so the claim demands next-zone field 0), yet `play_move` reads the
post-placement occupancy and yields 9 ("any"). -/
theorem claimC1_counterexample :
    0 ∈ generate_moves ((226, 284, 0) : Board) ∧
    zone_blocked ((226, 284, 0) : Board) (0 % 9) = false ∧
    (((play_move ((226, 284, 0) : Board) 0 false).2.2 >>> 54) &&& 0b1111) = ZONE_ANY ∧
    ZONE_ANY ≠ 0 % 9 := by decide

/-- Claim C1 (amended): for every board, legal move `mv` and side, the
next-zone field of the board returned by `play_move` equals 9 exactly when
the target zone `t = mv % 9` is completely occupied or has a meta bit set
for either player in the **returned** (post-move) board, and equals `t`
otherwise. (The source reads the updated words when computing the next
zone, not the pre-move board as the spec sentence demands.) -/
theorem claimC1_amended (us them share mv : Nat) (side : Bool)
    (hm : mv ∈ generate_moves (us, them, share)) :
    (((play_move (us, them, share) mv side).2.2 >>> 54) &&& 0b1111) =
      if zone_blocked (play_move (us, them, share) mv side) (mv % 9) then ZONE_ANY
      else mv % 9 := by
  have ht : mv % 9 < 9 := Nat.mod_lt _ (by norm_num)
  simp only [play_move]
  exact zone_write_rule _ _ _ _ ht

/-- Witness for the amended claim C1 at a concrete legal move. -/
theorem claimC1_amended_witness :
    (0 ∈ generate_moves ((0, 0, 9 <<< 54) : Board)) ∧
    (((play_move ((0, 0, 9 <<< 54) : Board) 0 false).2.2 >>> 54) &&& 0b1111) =
      if zone_blocked (play_move ((0, 0, 9 <<< 54) : Board) 0 false) (0 % 9) then ZONE_ANY
      else 0 % 9 :=
  ⟨by decide, claimC1_amended 0 0 (9 <<< 54) 0 false (by decide)⟩

/-!
## Claim C8
-/

/-- Claim C8: every meta-grid bit (bits 36..53 of `share`) that is set
before `play_move` is still set in the returned board's `share`: the move
only ORs bits into `share` and the final write clears bits 54..57 only. -/
theorem claimC8_meta_monotone (us them share : Nat) (mv : Nat) (side : Bool)
    (hmv : mv < 81) (j : Nat) (hj36 : 36 ≤ j) (hj54 : j < 54)
    (hset : share.testBit j = true) :
    ((play_move (us, them, share) mv side).2.2).testBit j = true := by
  simp only [play_move]
  rw [masked_or_testBit_low _ _ j hj54]
  repeat' split
  all_goals simp [Nat.testBit_or, hset]

/-- Witness for claim C8 at a concrete board and move. -/
theorem claimC8_witness :
    (0 : Nat) < 81 ∧ (36 : Nat) ≤ 36 ∧ (36 : Nat) < 54 ∧
    Nat.testBit (1 <<< 36) 36 = true ∧
    ((play_move ((0, 0, 1 <<< 36) : Board) 0 false).2.2).testBit 36 = true :=
  ⟨by decide, by decide, by decide, by decide,
    claimC8_meta_monotone 0 0 (1 <<< 36) 0 false (by decide) 36 (by decide)
      (by decide) (by decide)⟩

/-!
## Claim C4
-/

/-- Claim C4: if the next-zone field of the board is `z ∈ [0,8]`, every
cell yielded by `generate_moves` lies in zone `z`. -/
theorem claimC4_zone_constraint (us them share z m : Nat)
    (hz : (share >>> 54) &&& 0b1111 = z) (hz8 : z ≤ 8)
    (hm : m ∈ generate_moves (us, them, share)) : m / 9 = z := by
  simp only [generate_moves] at hm
  rw [hz] at hm
  by_cases hterm : (line_presence (share >>> 36) || line_presence (share >>> 45)) = true
  · rw [if_pos hterm] at hm
    simp at hm
  · rw [if_neg hterm] at hm
    have h9 : ¬ (z = ZONE_ANY) := by
      simp only [ZONE_ANY]
      omega
    rw [if_neg h9] at hm
    by_cases h78 : z = 7 ∨ z = 8
    · rw [if_pos h78] at hm
      simp only [List.mem_filter, List.mem_map, List.mem_range] at hm
      obtain ⟨⟨k, hk, rfl⟩, -⟩ := hm
      omega
    · rw [if_neg h78] at hm
      simp only [List.mem_filter, List.mem_map, List.mem_range] at hm
      obtain ⟨⟨k, hk, rfl⟩, -⟩ := hm
      omega

/-- Witness for claim C4: on the empty board constrained to zone NW, the
generated move 3 lies in zone 0. -/
theorem claimC4_witness :
    ((0 : Nat) >>> 54) &&& 0b1111 = 0 ∧ (0 : Nat) ≤ 8 ∧
    3 ∈ generate_moves ((0, 0, 0) : Board) ∧ 3 / 9 = 0 :=
  ⟨by decide, by decide, by decide,
    claimC4_zone_constraint 0 0 0 0 3 (by decide) (by decide) (by decide)⟩

/-!
## Claim C3
-/

/-- Claim C3: on a board with no legal moves, for any depth in
`[1, max_depth]` and any `alpha < beta`, `alpha_beta` returns the
mate-distance-scaled terminal score with the all-null PV: `1000000 - k`
when the side-adjusted meta evaluation is `+1000000`, `-1000000 + k` when
it is `-1000000`, and `0` otherwise, where `k = max_depth - depth`. -/
theorem claimC3_terminal_scaling (board : Board) (side : Bool)
    (depth max_depth : Nat) (alpha beta : Int)
    (h1 : 1 ≤ depth) (h2 : depth ≤ max_depth) (hab : alpha < beta)
    (hg : generate_moves board = []) :
    alpha_beta board side depth alpha beta max_depth =
      (if toggle_eval side (EVAL_LARGE ((board.2.2 >>> 36) &&& DBLCHUNK)) = OUTCOME_WIN
        then OUTCOME_WIN - ((max_depth - depth : Nat) : Int)
        else if toggle_eval side (EVAL_LARGE ((board.2.2 >>> 36) &&& DBLCHUNK)) = OUTCOME_LOSS
        then OUTCOME_LOSS + ((max_depth - depth : Nat) : Int)
        else 0, nullPV) := by
  obtain ⟨d, rfl⟩ : ∃ d, depth = d + 1 := ⟨depth - 1, by omega⟩
  simp only [alpha_beta, hg]
  split_ifs with hw hl
  · rw [hw]
  · rw [hl]
  · rfl

/-- Witness for claim C3 on a board whose meta grid holds an X line. -/
theorem claimC3_witness :
    (1 : Nat) ≤ 1 ∧ (-1000000 : Int) < 1000000 ∧
    generate_moves ((0, 0, (0b111 <<< 36) ||| (9 <<< 54)) : Board) = [] ∧
    alpha_beta ((0, 0, (0b111 <<< 36) ||| (9 <<< 54)) : Board) false 1
      (-1000000) 1000000 1 = (1000000, nullPV) := by
  refine ⟨by decide, by decide, by decide, ?_⟩
  rw [claimC3_terminal_scaling (0, 0, (0b111 <<< 36) ||| (9 <<< 54)) false 1 1
    (-1000000) 1000000 (by decide) (by decide) (by decide) (by decide)]
  decide

/-!
## Claim C10
-/

/-- Claim C10: there is a position with legal moves on which `alpha_beta`
fails low: every child score stays at or below `alpha`, so the search
returns `(alpha, all-null PV)` and `PV[0]` is the sentinel 81, not a legal
move. -/
theorem claimC10_fail_low_null_pv :
    ∃ (board : Board) (side : Bool) (depth max_depth : Nat) (alpha beta : Int),
      1 ≤ depth ∧ alpha < beta ∧ generate_moves board ≠ [] ∧
      alpha_beta board side depth alpha beta max_depth =
        (alpha, List.replicate 81 NULL_MOVE) ∧
      (List.replicate 81 NULL_MOVE).getD 0 0 = 81 ∧
      NULL_MOVE ∉ generate_moves board :=
  ⟨(226, 284, 0), false, 1, 1, 1, 2, by decide, by decide, by decide, by decide,
    by decide, by decide⟩

/-!
## Claim C5
-/

set_option maxRecDepth 40000

/-- Claim C5: `line_presence` agrees with reading the eight 3-bit fields
of `lines`: some field equals `0b111` iff the mask computation is
non-zero. -/
theorem claimC5_line_presence_refines : ∀ g < 512, line_presence g = has_full_line g := by
  decide

/-- Witness for claim C5 at a grid with a full top column. -/
theorem claimC5_witness : line_presence 0b1001001 = has_full_line 0b1001001 :=
  claimC5_line_presence_refines 0b1001001 (by decide)

/-!
## The `line_scores` loop: swap symmetry, sources of the win flags, bounds
-/

/-- Swapping the two grids negates the accumulators and swaps the win
flags: the dead-line skip fires symmetrically, and on a live line the
3-count checks cannot both fire. -/
lemma line_scores_swap (L : List Nat) (usl thl : Nat) (el es : Int) :
    line_scores L thl usl (-el) (-es) =
      (-(line_scores L usl thl el es).1, -(line_scores L usl thl el es).2.1,
        (line_scores L usl thl el es).2.2.2, (line_scores L usl thl el es).2.2.1) := by
  induction L generalizing el es with
  | nil => simp [line_scores]
  | cons i rest ih =>
    simp only [line_scores]
    by_cases h1 : popCount9 (usl >>> i &&& LINE) ≠ 0 ∧ popCount9 (thl >>> i &&& LINE) ≠ 0
    · rw [if_pos h1, if_pos ⟨h1.2, h1.1⟩]
      exact ih el es
    · rw [if_neg h1, if_neg (fun h => h1 ⟨h.2, h.1⟩)]
      by_cases h2 : popCount9 (usl >>> i &&& LINE) = 3
      · have htc : popCount9 (thl >>> i &&& LINE) = 0 := by
          by_contra hc
          exact h1 ⟨by omega, hc⟩
        simp [h2, htc]
      · by_cases h3 : popCount9 (thl >>> i &&& LINE) = 3
        · have huc : popCount9 (usl >>> i &&& LINE) = 0 := by
            by_contra hc
            exact h1 ⟨hc, by omega⟩
          simp [huc, h3]
        · rw [if_neg h3, if_neg h2, if_neg h3, if_neg h2]
          rw [show -el + big_count_score (popCount9 (thl >>> i &&& LINE))
                - big_count_score (popCount9 (usl >>> i &&& LINE))
              = -(el + big_count_score (popCount9 (usl >>> i &&& LINE))
                - big_count_score (popCount9 (thl >>> i &&& LINE))) from by ring]
          rw [show -es + small_count_score (popCount9 (thl >>> i &&& LINE))
                - small_count_score (popCount9 (usl >>> i &&& LINE))
              = -(es + small_count_score (popCount9 (usl >>> i &&& LINE))
                - small_count_score (popCount9 (thl >>> i &&& LINE))) from by ring]
          exact ih _ _

/-- The loop never reports both sides as winners. -/
lemma line_scores_not_both (L : List Nat) (usl thl : Nat) (el es : Int)
    (h : (line_scores L usl thl el es).2.2.1 = true) :
    (line_scores L usl thl el es).2.2.2 = false := by
  induction L generalizing el es with
  | nil => simp [line_scores] at h
  | cons i rest ih =>
    simp only [line_scores] at h ⊢
    by_cases h1 : popCount9 (usl >>> i &&& LINE) ≠ 0 ∧ popCount9 (thl >>> i &&& LINE) ≠ 0
    · rw [if_pos h1] at h ⊢
      exact ih _ _ h
    · rw [if_neg h1] at h ⊢
      by_cases h2 : popCount9 (usl >>> i &&& LINE) = 3
      · rw [if_pos h2]
      · rw [if_neg h2] at h ⊢
        by_cases h3 : popCount9 (thl >>> i &&& LINE) = 3
        · rw [if_pos h3] at h
          simp at h
        · rw [if_neg h3] at h ⊢
          exact ih _ _ h

/-- If the loop reports `us_won`, some field of `lines us` held a full
line. -/
lemma line_scores_won_source (L : List Nat) (usl thl : Nat) (el es : Int)
    (h : (line_scores L usl thl el es).2.2.1 = true) :
    ∃ i ∈ L, popCount9 (usl >>> i &&& LINE) = 3 := by
  induction L generalizing el es with
  | nil => simp [line_scores] at h
  | cons i rest ih =>
    simp only [line_scores] at h
    by_cases h1 : popCount9 (usl >>> i &&& LINE) ≠ 0 ∧ popCount9 (thl >>> i &&& LINE) ≠ 0
    · rw [if_pos h1] at h
      obtain ⟨j, hj, hj3⟩ := ih _ _ h
      exact ⟨j, List.mem_cons_of_mem _ hj, hj3⟩
    · rw [if_neg h1] at h
      by_cases h2 : popCount9 (usl >>> i &&& LINE) = 3
      · exact ⟨i, List.mem_cons_self _ _, h2⟩
      · rw [if_neg h2] at h
        by_cases h3 : popCount9 (thl >>> i &&& LINE) = 3
        · rw [if_pos h3] at h
          simp at h
        · rw [if_neg h3] at h
          obtain ⟨j, hj, hj3⟩ := ih _ _ h
          exact ⟨j, List.mem_cons_of_mem _ hj, hj3⟩

/-- If some field of `lines usl` holds a full line, no field of
`lines thl` does, and every `usl`-full field is `thl`-empty, the loop
reports `us_won`. -/
lemma line_scores_wins (L : List Nat) (usl thl : Nat) (el es : Int)
    (hex : ∃ i ∈ L, popCount9 (usl >>> i &&& LINE) = 3)
    (hno : ∀ i ∈ L, popCount9 (thl >>> i &&& LINE) ≠ 3)
    (hz : ∀ i ∈ L, popCount9 (usl >>> i &&& LINE) = 3 →
      popCount9 (thl >>> i &&& LINE) = 0) :
    (line_scores L usl thl el es).2.2.1 = true := by
  induction L generalizing el es with
  | nil => simp at hex
  | cons i rest ih =>
    simp only [line_scores]
    by_cases h2 : popCount9 (usl >>> i &&& LINE) = 3
    · have htc0 := hz i (List.mem_cons_self _ _) h2
      rw [if_neg (fun hc => hc.2 htc0), if_pos h2]
    · have hex' : ∃ j ∈ rest, popCount9 (usl >>> j &&& LINE) = 3 := by
        obtain ⟨j, hj, hj3⟩ := hex
        rcases List.mem_cons.mp hj with rfl | hjr
        · exact absurd hj3 h2
        · exact ⟨j, hjr, hj3⟩
      have hno' : ∀ k ∈ rest, popCount9 (thl >>> k &&& LINE) ≠ 3 :=
        fun k hk => hno k (List.mem_cons_of_mem _ hk)
      have hz' : ∀ k ∈ rest, popCount9 (usl >>> k &&& LINE) = 3 →
          popCount9 (thl >>> k &&& LINE) = 0 :=
        fun k hk => hz k (List.mem_cons_of_mem _ hk)
      by_cases h1 : popCount9 (usl >>> i &&& LINE) ≠ 0 ∧ popCount9 (thl >>> i &&& LINE) ≠ 0
      · rw [if_pos h1]
        exact ih _ _ hex' hno' hz'
      · rw [if_neg h1, if_neg h2, if_neg (hno i (List.mem_cons_self _ _))]
        exact ih _ _ hex' hno' hz'

/-!
## Per-grid facts established by exhaustive evaluation
-/

/-- `line_presence` holds exactly when some field of `lines` counts 3. -/
lemma lp_iff_field3 : ∀ g < 512, (line_presence g = true ↔
    ∃ i ∈ fieldOffsets, popCount9 (lines g >>> i &&& LINE) = 3) := by
  decide

/-- A field counting 3 means the three cells of that line are all set. -/
lemma field3_cells : ∀ g < 512, ∀ i ∈ fieldOffsets,
    popCount9 (lines g >>> i &&& LINE) = 3 →
    ∀ c ∈ lineCellsOf i, g.testBit c = true := by
  decide

/-- A line none of whose three cells is set has field count 0. -/
lemma field0_cells : ∀ g < 512, ∀ i ∈ fieldOffsets,
    (∀ c ∈ lineCellsOf i, g.testBit c = false) →
    popCount9 (lines g >>> i &&& LINE) = 0 := by
  decide

/-- A cell of a grid disjoint from `a` is clear wherever `a` is set. -/
lemma disjoint_testBit (a b : Nat) (hd : a &&& b = 0) (c : Nat)
    (hc : a.testBit c = true) : b.testBit c = false := by
  have h := congrArg (fun x => Nat.testBit x c) hd
  simp only [Nat.testBit_and, Nat.zero_testBit] at h
  simpa [hc] using h

/-!
## Table index decomposition and antisymmetry
-/

/-- The low 9 bits of a table index `(a <<< 9) ||| b` recover `b`. -/
lemma idx_low (a b : Nat) (hb : b < 512) : ((a <<< 9) ||| b) &&& 511 = b := by
  apply Nat.eq_of_testBit_eq
  intro i
  rw [Nat.testBit_and, Nat.testBit_or, testBit_511]
  by_cases hi : i < 9
  · have h9 : ¬ (9 ≤ i) := by omega
    simp [Nat.testBit_shiftLeft, h9, hi]
  · have hb' : b < 2 ^ i := by
      calc b < 512 := hb
      _ = 2 ^ 9 := by norm_num
      _ ≤ 2 ^ i := Nat.pow_le_pow_right (by norm_num) (by omega)
    simp [hi, Nat.testBit_lt_two_pow hb']

/-- The high 9 bits of a table index `(a <<< 9) ||| b` recover `a`. -/
lemma idx_high (a b : Nat) (hb : b < 512) : ((a <<< 9) ||| b) >>> 9 = a := by
  apply Nat.eq_of_testBit_eq
  intro i
  have hb' : b < 2 ^ (9 + i) := by
    calc b < 512 := hb
    _ = 2 ^ 9 := by norm_num
    _ ≤ 2 ^ (9 + i) := Nat.pow_le_pow_right (by norm_num) (by omega)
  have h9 : (9 : Nat) ≤ 9 + i := by omega
  simp [Nat.testBit_shiftRight, Nat.testBit_or, Nat.testBit_shiftLeft, h9,
    Nat.testBit_lt_two_pow hb']

/-- Reading the table at index `(them <<< 9) ||| us` yields the entry
computed for the pair `(us, them)`. -/
lemma EVAL_LARGE_at (us them : Nat) (hu : us < 512) :
    EVAL_LARGE ((them <<< 9) ||| us) = (tableEntry us them).1 := by
  rw [EVAL_LARGE, idx_low them us hu, idx_high them us hu]

/-- Reading the small table at index `(them <<< 9) ||| us` yields the entry
computed for the pair `(us, them)`. -/
lemma EVAL_SMALL_at (us them : Nat) (hu : us < 512) :
    EVAL_SMALL ((them <<< 9) ||| us) = (tableEntry us them).2 := by
  rw [EVAL_SMALL, idx_low them us hu, idx_high them us hu]

/-- The positional score is antisymmetric in the two grids. -/
lemma eval_pos_antisym (a b : Nat) : eval_pos b a = -eval_pos a b := by
  simp only [eval_pos]
  ring

/-- Both table entries computed for `(b, a)` are the negatives of those
computed for `(a, b)`. -/
lemma tableEntry_antisym (a b : Nat) :
    (tableEntry b a).1 = -(tableEntry a b).1 ∧
    (tableEntry b a).2 = -(tableEntry a b).2 := by
  have hs := line_scores_swap fieldOffsets (lines a) (lines b) 0 0
  rw [neg_zero] at hs
  simp only [tableEntry, hs]
  by_cases hu : (line_scores fieldOffsets (lines a) (lines b) 0 0).2.2.1 = true
  · have htw := line_scores_not_both fieldOffsets (lines a) (lines b) 0 0 hu
    simp [hu, htw, OUTCOME_WIN, OUTCOME_LOSS]
  · by_cases htw : (line_scores fieldOffsets (lines a) (lines b) 0 0).2.2.2 = true
    · simp [hu, htw, OUTCOME_WIN, OUTCOME_LOSS]
    · simp only [Bool.not_eq_true] at hu htw
      rw [Nat.or_comm b a]
      by_cases hd : popCount9 (a ||| b) = 9
      · simp [hu, htw, hd, OUTCOME_DRAW]
      · simp only [hu, htw, hd, if_false, Bool.false_eq_true]
        rw [eval_pos_antisym a b]
        constructor
        · ring
        · ring

/-!
## Bounds on the heuristic entries
-/

lemma big_count_score_bound (n : Nat) :
    0 ≤ big_count_score n ∧ big_count_score n ≤ 90 := by
  rcases n with _ | _ | _ | n
  · norm_num [show big_count_score 0 = 0 from rfl]
  · norm_num [show big_count_score 1 = 20 from rfl]
  · norm_num [show big_count_score 2 = 90 from rfl]
  · norm_num [show big_count_score (n + 1 + 1 + 1) = 0 from rfl]

lemma small_count_score_bound (n : Nat) :
    0 ≤ small_count_score n ∧ small_count_score n ≤ 8 := by
  rcases n with _ | _ | _ | n
  · norm_num [show small_count_score 0 = 0 from rfl]
  · norm_num [show small_count_score 1 = 1 from rfl]
  · norm_num [show small_count_score 2 = 8 from rfl]
  · norm_num [show small_count_score (n + 1 + 1 + 1) = 0 from rfl]

/-- Each loop step moves each accumulator by at most 90 (resp. 8). -/
lemma line_scores_bound (L : List Nat) (usl thl : Nat) (el es : Int) :
    |(line_scores L usl thl el es).1| ≤ |el| + 90 * (L.length : Int) ∧
    |(line_scores L usl thl el es).2.1| ≤ |es| + 8 * (L.length : Int) := by
  induction L generalizing el es with
  | nil => simp [line_scores]
  | cons i rest ih =>
    have hlen : ((i :: rest).length : Int) = (rest.length : Int) + 1 := by
      push_cast [List.length_cons]
      ring
    rw [hlen]
    have hrest : (0 : Int) ≤ (rest.length : Int) := Int.natCast_nonneg _
    simp only [line_scores]
    by_cases h1 : popCount9 (usl >>> i &&& LINE) ≠ 0 ∧ popCount9 (thl >>> i &&& LINE) ≠ 0
    · rw [if_pos h1]
      obtain ⟨b1, b2⟩ := ih el es
      constructor <;> linarith
    · rw [if_neg h1]
      by_cases h2 : popCount9 (usl >>> i &&& LINE) = 3
      · rw [if_pos h2]
        constructor <;> · simp only
                          linarith [abs_nonneg el, abs_nonneg es]
      · rw [if_neg h2]
        by_cases h3 : popCount9 (thl >>> i &&& LINE) = 3
        · rw [if_pos h3]
          constructor <;> · simp only
                            linarith [abs_nonneg el, abs_nonneg es]
        · rw [if_neg h3]
          obtain ⟨b1, b2⟩ := ih
            (el + big_count_score (popCount9 (usl >>> i &&& LINE))
              - big_count_score (popCount9 (thl >>> i &&& LINE)))
            (es + small_count_score (popCount9 (usl >>> i &&& LINE))
              - small_count_score (popCount9 (thl >>> i &&& LINE)))
          obtain ⟨c1, c2⟩ := big_count_score_bound (popCount9 (usl >>> i &&& LINE))
          obtain ⟨c3, c4⟩ := big_count_score_bound (popCount9 (thl >>> i &&& LINE))
          obtain ⟨d1, d2⟩ := small_count_score_bound (popCount9 (usl >>> i &&& LINE))
          obtain ⟨d3, d4⟩ := small_count_score_bound (popCount9 (thl >>> i &&& LINE))
          have he1 : |el + big_count_score (popCount9 (usl >>> i &&& LINE))
              - big_count_score (popCount9 (thl >>> i &&& LINE))| ≤ |el| + 90 := by
            rw [abs_le]
            constructor <;> linarith [le_abs_self el, neg_abs_le el]
          have he2 : |es + small_count_score (popCount9 (usl >>> i &&& LINE))
              - small_count_score (popCount9 (thl >>> i &&& LINE))| ≤ |es| + 8 := by
            rw [abs_le]
            constructor <;> linarith [le_abs_self es, neg_abs_le es]
          constructor <;> linarith

lemma popCount9_mask_bound : ∀ g < 512,
    popCount9 (g &&& CORNER_MASK) ≤ 4 ∧ popCount9 (g &&& EDGE_MASK) ≤ 4 ∧
    popCount9 (g &&& CENTRE_MASK) ≤ 1 := by
  decide

lemma eval_pos_bound (us them : Nat) (hu : us < 512) (ht : them < 512) :
    |eval_pos us them| ≤ 57 := by
  obtain ⟨u1, u2, u3⟩ := popCount9_mask_bound us hu
  obtain ⟨t1, t2, t3⟩ := popCount9_mask_bound them ht
  have hu1 : ((popCount9 (us &&& CORNER_MASK) : Int)) ≤ 4 := by exact_mod_cast u1
  have hu2 : ((popCount9 (us &&& EDGE_MASK) : Int)) ≤ 4 := by exact_mod_cast u2
  have hu3 : ((popCount9 (us &&& CENTRE_MASK) : Int)) ≤ 1 := by exact_mod_cast u3
  have ht1 : ((popCount9 (them &&& CORNER_MASK) : Int)) ≤ 4 := by exact_mod_cast t1
  have ht2 : ((popCount9 (them &&& EDGE_MASK) : Int)) ≤ 4 := by exact_mod_cast t2
  have ht3 : ((popCount9 (them &&& CENTRE_MASK) : Int)) ≤ 1 := by exact_mod_cast t3
  have n1 : (0 : Int) ≤ (popCount9 (us &&& CORNER_MASK) : Int) := Int.natCast_nonneg _
  have n2 : (0 : Int) ≤ (popCount9 (us &&& EDGE_MASK) : Int) := Int.natCast_nonneg _
  have n3 : (0 : Int) ≤ (popCount9 (us &&& CENTRE_MASK) : Int) := Int.natCast_nonneg _
  have m1 : (0 : Int) ≤ (popCount9 (them &&& CORNER_MASK) : Int) := Int.natCast_nonneg _
  have m2 : (0 : Int) ≤ (popCount9 (them &&& EDGE_MASK) : Int) := Int.natCast_nonneg _
  have m3 : (0 : Int) ≤ (popCount9 (them &&& CENTRE_MASK) : Int) := Int.natCast_nonneg _
  rw [eval_pos, CORNER, EDGE, CENTRE, abs_le]
  constructor <;> linarith

/-- Outside the win/loss branches the large entry is at most 2145 in
magnitude. -/
lemma entry_large_bound (us them : Nat) (hu : us < 512) (ht : them < 512)
    (hw : (tableEntry us them).1 ≠ OUTCOME_WIN)
    (hl : (tableEntry us them).1 ≠ OUTCOME_LOSS) :
    |(tableEntry us them).1| ≤ 2145 := by
  obtain ⟨b1, -⟩ := line_scores_bound fieldOffsets (lines us) (lines them) 0 0
  have hb1 : |(line_scores fieldOffsets (lines us) (lines them) 0 0).1| ≤ 720 := by
    simpa [fieldOffsets] using b1
  have hp := eval_pos_bound us them hu ht
  simp only [tableEntry] at hw hl ⊢
  by_cases h1 : (line_scores fieldOffsets (lines us) (lines them) 0 0).2.2.1 = true
  · rw [if_pos h1] at hw
    simp at hw
  · rw [if_neg h1] at hw hl ⊢
    by_cases h2 : (line_scores fieldOffsets (lines us) (lines them) 0 0).2.2.2 = true
    · rw [if_pos h2] at hl
      simp at hl
    · rw [if_neg h2] at hw hl ⊢
      by_cases h3 : popCount9 (us ||| them) = 9
      · rw [if_pos h3]
        norm_num [OUTCOME_DRAW]
      · rw [if_neg h3]
        simp only [SQ_BIG]
        rw [abs_le] at hb1 hp ⊢
        constructor <;> linarith

/-- The small entry is at most 121 in magnitude. -/
lemma entry_small_bound (us them : Nat) (hu : us < 512) (ht : them < 512) :
    |(tableEntry us them).2| ≤ 121 := by
  obtain ⟨-, b2⟩ := line_scores_bound fieldOffsets (lines us) (lines them) 0 0
  have hb2 : |(line_scores fieldOffsets (lines us) (lines them) 0 0).2.1| ≤ 64 := by
    simpa [fieldOffsets] using b2
  have hp := eval_pos_bound us them hu ht
  simp only [tableEntry]
  by_cases h1 : (line_scores fieldOffsets (lines us) (lines them) 0 0).2.2.1 = true
  · rw [if_pos h1]
    norm_num
  · rw [if_neg h1]
    by_cases h2 : (line_scores fieldOffsets (lines us) (lines them) 0 0).2.2.2 = true
    · rw [if_pos h2]
      norm_num
    · rw [if_neg h2]
      by_cases h3 : popCount9 (us ||| them) = 9
      · rw [if_pos h3]
        norm_num
      · rw [if_neg h3]
        rw [abs_le] at hb2 hp
        rw [abs_le]
        constructor
        · show -121 ≤ (line_scores fieldOffsets (lines us) (lines them) 0 0).2.1
            + eval_pos us them
          linarith
        · show (line_scores fieldOffsets (lines us) (lines them) 0 0).2.1
            + eval_pos us them ≤ 121
          linarith

/-- Terminal encoding of the large table, for pairs where at most one of
the two grids holds a completed line. -/
lemma entry_win_iff (us them : Nat) (hu : us < 512) (ht : them < 512)
    (hd : us &&& them = 0)
    (hnb : ¬(line_presence us = true ∧ line_presence them = true)) :
    ((tableEntry us them).1 = OUTCOME_WIN ↔ line_presence us = true) := by
  constructor
  · intro h
    by_cases hw : (line_scores fieldOffsets (lines us) (lines them) 0 0).2.2.1 = true
    · obtain ⟨i, hi, h3⟩ := line_scores_won_source _ _ _ _ _ hw
      exact (lp_iff_field3 us hu).mpr ⟨i, hi, h3⟩
    · exfalso
      obtain ⟨b1, -⟩ := line_scores_bound fieldOffsets (lines us) (lines them) 0 0
      have hb1 : |(line_scores fieldOffsets (lines us) (lines them) 0 0).1| ≤ 720 := by
        simpa [fieldOffsets] using b1
      have hp := eval_pos_bound us them hu ht
      rw [abs_le] at hb1 hp
      simp only [tableEntry, if_neg hw] at h
      by_cases h2 : (line_scores fieldOffsets (lines us) (lines them) 0 0).2.2.2 = true
      · rw [if_pos h2] at h
        norm_num [OUTCOME_WIN, OUTCOME_LOSS] at h
      · rw [if_neg h2] at h
        by_cases h3 : popCount9 (us ||| them) = 9
        · rw [if_pos h3] at h
          norm_num [OUTCOME_WIN, OUTCOME_DRAW] at h
        · rw [if_neg h3] at h
          have h' : (line_scores fieldOffsets (lines us) (lines them) 0 0).1
              + eval_pos us them * SQ_BIG = OUTCOME_WIN := h
          rw [SQ_BIG, OUTCOME_WIN] at h'
          linarith
  · intro hlp
    have hlpt : ¬ line_presence them = true := fun hc => hnb ⟨hlp, hc⟩
    obtain ⟨i, hi, h3⟩ := (lp_iff_field3 us hu).mp hlp
    have hno : ∀ k ∈ fieldOffsets, popCount9 (lines them >>> k &&& LINE) ≠ 3 := by
      intro k hk hc
      exact hlpt ((lp_iff_field3 them ht).mpr ⟨k, hk, hc⟩)
    have hz : ∀ k ∈ fieldOffsets, popCount9 (lines us >>> k &&& LINE) = 3 →
        popCount9 (lines them >>> k &&& LINE) = 0 := by
      intro k hk h3k
      apply field0_cells them ht k hk
      intro c hc
      exact disjoint_testBit us them hd c (field3_cells us hu k hk h3k c hc)
    have hw := line_scores_wins fieldOffsets (lines us) (lines them) 0 0
      ⟨i, hi, h3⟩ hno hz
    simp [tableEntry, hw]

/-!
## Claim C2
-/

/-- Claim C2, as stated, is false on the code: for the disjoint pair
`us = {2,5,8}`, `them = {0,6,3}` both sides hold a line; the loop of
`init()` reaches `them`'s line first (field {0,3,6} precedes {2,5,8}), so
the entry is `-1000000` even though `line_presence us` holds. -/
theorem claimC2_counterexample :
    (292 : Nat) < 512 ∧ (73 : Nat) < 512 ∧ (292 : Nat) &&& 73 = 0 ∧
    line_presence 292 = true ∧
    EVAL_LARGE ((73 <<< 9) ||| 292) ≠ OUTCOME_WIN := by
  decide

/-- Claim C2 (amended): for disjoint 9-bit pairs where **at most one** of
the two grids holds a completed line, `EVAL_LARGE[(them << 9) | us]` is
`+1000000` iff `line_presence us` and `-1000000` iff `line_presence them`.
(When both hold a line the loop's first decisive field wins, so the claim
as stated fails.) -/
theorem claimC2_amended (us them : Nat) (hu : us < 512) (ht : them < 512)
    (hd : us &&& them = 0)
    (hnb : ¬(line_presence us = true ∧ line_presence them = true)) :
    (EVAL_LARGE ((them <<< 9) ||| us) = OUTCOME_WIN ↔ line_presence us = true) ∧
    (EVAL_LARGE ((them <<< 9) ||| us) = OUTCOME_LOSS ↔ line_presence them = true) := by
  rw [EVAL_LARGE_at us them hu]
  have hd' : them &&& us = 0 := by rwa [Nat.and_comm]
  have hnb' : ¬(line_presence them = true ∧ line_presence us = true) :=
    fun hc => hnb ⟨hc.2, hc.1⟩
  have h1 : (tableEntry us them).1 = -(tableEntry them us).1 :=
    (tableEntry_antisym them us).1
  refine ⟨entry_win_iff us them hu ht hd hnb, ?_, ?_⟩
  · intro h
    have hutw : (tableEntry them us).1 = OUTCOME_WIN := by
      rw [h1] at h
      rw [OUTCOME_LOSS] at h
      rw [OUTCOME_WIN]
      omega
    exact (entry_win_iff them us ht hu hd' hnb').mp hutw
  · intro h
    have := (entry_win_iff them us ht hu hd' hnb').mpr h
    rw [h1, this, OUTCOME_WIN, OUTCOME_LOSS]

/-- Witness for the amended claim C2 at the pair (top row for X, empty
for O). -/
theorem claimC2_amended_witness :
    (7 : Nat) < 512 ∧ (0 : Nat) < 512 ∧ (7 : Nat) &&& 0 = 0 ∧
    ¬(line_presence 7 = true ∧ line_presence 0 = true) ∧
    ((EVAL_LARGE ((0 <<< 9) ||| 7) = OUTCOME_WIN ↔ line_presence 7 = true) ∧
     (EVAL_LARGE ((0 <<< 9) ||| 7) = OUTCOME_LOSS ↔ line_presence 0 = true)) :=
  ⟨by decide, by decide, by decide, by decide,
    claimC2_amended 7 0 (by decide) (by decide) (by decide) (by decide)⟩

/-!
## Membership in the move list, and bit-count lemmas for claim C7
-/

/-- A generated move either targets a cell of zones 0..6 that is free in
`us ||| them`, or a cell of zones 7..8 free in both 18-bit halves of
`share`. Requires the next-zone invariant (field value at most 9). -/
lemma mem_generate_moves_cases (us them share m : Nat)
    (hz : (share >>> 54) &&& 0b1111 ≤ 9)
    (hm : m ∈ generate_moves (us, them, share)) :
    (m < 63 ∧ (us ||| them).testBit m = false) ∨
    (63 ≤ m ∧ m < 81 ∧ ((share >>> 18) ||| share).testBit (m - 63) = false) := by
  simp only [generate_moves] at hm
  by_cases hterm : (line_presence (share >>> 36) || line_presence (share >>> 45)) = true
  · rw [if_pos hterm] at hm
    simp at hm
  · rw [if_neg hterm] at hm
    by_cases hany : (share >>> 54) &&& 0b1111 = ZONE_ANY
    · rw [if_pos hany] at hm
      rcases List.mem_append.mp hm with h | h
      · rw [List.mem_filter] at h
        obtain ⟨hr, hp⟩ := h
        rw [List.mem_range] at hr
        exact Or.inl ⟨hr,
          (and_one_shiftRight_eq_zero_iff _ _).mp (of_decide_eq_true hp).1⟩
      · rw [List.mem_filter] at h
        obtain ⟨hr, hp⟩ := h
        obtain ⟨k, hk, rfl⟩ := List.mem_map.mp hr
        rw [List.mem_range] at hk
        exact Or.inr ⟨by omega, by omega,
          (and_one_shiftRight_eq_zero_iff _ _).mp (of_decide_eq_true hp).1⟩
    · rw [if_neg hany] at hm
      by_cases h78 : (share >>> 54) &&& 0b1111 = 7 ∨ (share >>> 54) &&& 0b1111 = 8
      · rw [if_pos h78] at hm
        rw [List.mem_filter] at hm
        obtain ⟨hr, hp⟩ := hm
        obtain ⟨k, hk, rfl⟩ := List.mem_map.mp hr
        rw [List.mem_range] at hk
        refine Or.inr ⟨?_, ?_,
          (and_one_shiftRight_eq_zero_iff _ _).mp (of_decide_eq_true hp)⟩ <;>
          rcases h78 with h | h <;> rw [h] <;> omega
      · rw [if_neg h78] at hm
        rw [List.mem_filter] at hm
        obtain ⟨hr, hp⟩ := hm
        obtain ⟨k, hk, rfl⟩ := List.mem_map.mp hr
        rw [List.mem_range] at hk
        simp only [ZONE_ANY] at hany
        refine Or.inl ⟨by omega,
          (and_one_shiftRight_eq_zero_iff _ _).mp (of_decide_eq_true hp)⟩

/-- ORing in a fresh low bit adds one to the bit count over a window
containing it. -/
lemma sum_toNat_or_pow (x p n : Nat) (hp : p < n) (hx : x.testBit p = false) :
    (∑ i ∈ Finset.range n, ((x ||| 1 <<< p).testBit i).toNat)
      = (∑ i ∈ Finset.range n, (x.testBit i).toNat) + 1 := by
  have hmem : p ∈ Finset.range n := Finset.mem_range.mpr hp
  rw [← Finset.sum_erase_add _ _ hmem,
    ← Finset.sum_erase_add _ (fun i => (x.testBit i).toNat) hmem]
  have hcong : ∀ i ∈ (Finset.range n).erase p,
      ((x ||| 1 <<< p).testBit i).toNat = (x.testBit i).toNat := by
    intro i hi
    have hne : i ≠ p := (Finset.mem_erase.mp hi).1
    rw [Nat.one_shiftLeft, Nat.testBit_or, Nat.testBit_two_pow_of_ne (by omega)]
    simp
  rw [Finset.sum_congr rfl hcong]
  have hkbit : ((x ||| 1 <<< p).testBit p).toNat = 1 := by
    rw [Nat.one_shiftLeft, Nat.testBit_or, Nat.testBit_two_pow_self]
    simp
  rw [hkbit, hx]
  simp

/-- Offset variant of `sum_toNat_or_pow` for the high half of `share`. -/
lemma sum_toNat_or_pow_off (x p off n : Nat) (hp : p < n)
    (hx : x.testBit (off + p) = false) :
    (∑ i ∈ Finset.range n, ((x ||| 1 <<< (off + p)).testBit (off + i)).toNat)
      = (∑ i ∈ Finset.range n, (x.testBit (off + i)).toNat) + 1 := by
  have hmem : p ∈ Finset.range n := Finset.mem_range.mpr hp
  rw [← Finset.sum_erase_add _ _ hmem,
    ← Finset.sum_erase_add _ (fun i => (x.testBit (off + i)).toNat) hmem]
  have hcong : ∀ i ∈ (Finset.range n).erase p,
      ((x ||| 1 <<< (off + p)).testBit (off + i)).toNat
        = (x.testBit (off + i)).toNat := by
    intro i hi
    have hne : i ≠ p := (Finset.mem_erase.mp hi).1
    rw [Nat.one_shiftLeft, Nat.testBit_or, Nat.testBit_two_pow_of_ne (by omega)]
    simp
  rw [Finset.sum_congr rfl hcong]
  have hkbit : ((x ||| 1 <<< (off + p)).testBit (off + p)).toNat = 1 := by
    rw [Nat.one_shiftLeft, Nat.testBit_or, Nat.testBit_two_pow_self]
    simp
  rw [hkbit, hx]
  simp

lemma sum_toNat_congr (x y n : Nat) (h : ∀ i, i < n → y.testBit i = x.testBit i) :
    (∑ i ∈ Finset.range n, (y.testBit i).toNat)
      = ∑ i ∈ Finset.range n, (x.testBit i).toNat :=
  Finset.sum_congr rfl fun i hi => by rw [h i (Finset.mem_range.mp hi)]

lemma sum_toNat_congr_off (x y off n : Nat)
    (h : ∀ i, i < n → y.testBit (off + i) = x.testBit (off + i)) :
    (∑ i ∈ Finset.range n, (y.testBit (off + i)).toNat)
      = ∑ i ∈ Finset.range n, (x.testBit (off + i)).toNat :=
  Finset.sum_congr rfl fun i hi => by rw [h i (Finset.mem_range.mp hi)]

/-- The `us` word returned by `play_move`. -/
lemma play_move_fst (us them share m : Nat) (side : Bool) :
    (play_move (us, them, share) m side).1 =
      if 62 < m then us else if !side then us ||| 1 <<< m else us := by
  simp only [play_move]
  split
  · rfl
  · split <;> rfl

/-- The `them` word returned by `play_move`. -/
lemma play_move_snd (us them share m : Nat) (side : Bool) :
    (play_move (us, them, share) m side).2.1 =
      if 62 < m then them else if !side then them else them ||| 1 <<< m := by
  simp only [play_move]
  split
  · rfl
  · split <;> rfl

/-- Bits 0..35 of the returned `share` for a move below cell 63: the cell
write goes to `us`/`them` and the meta/zone writes touch bits ≥ 36 only. -/
lemma play_move_share_testBit_lo (us them share m : Nat) (side : Bool) (j : Nat)
    (hj : j < 36) (h62 : ¬ 62 < m) :
    ((play_move (us, them, share) m side).2.2).testBit j = share.testBit j := by
  simp only [play_move, if_neg h62]
  rw [masked_or_testBit_low _ _ j (by omega)]
  repeat' split
  all_goals first
    | rfl
    | (show (share ||| 1 <<< (36 + toggle_shift side 9 + m / 9)).testBit j
          = share.testBit j
       rw [Nat.one_shiftLeft, Nat.testBit_or,
         Nat.testBit_two_pow_of_ne (show 36 + toggle_shift side 9 + m / 9 ≠ j by omega)]
       exact Bool.or_false _)

/-- Bits 0..35 of the returned `share` for a move at cell 63 or above:
only the placed cell bit is added below bit 36. -/
lemma play_move_share_testBit_hi (us them share m : Nat) (side : Bool) (j : Nat)
    (hj : j < 36) (h62 : 62 < m) :
    ((play_move (us, them, share) m side).2.2).testBit j =
      (share ||| 1 <<< (m - 63 + toggle_shift side 18)).testBit j := by
  simp only [play_move, if_pos h62]
  rw [masked_or_testBit_low _ _ j (by omega)]
  repeat' split
  all_goals first
    | rfl
    | (show ((share ||| 1 <<< (m - 63 + toggle_shift side 18)) |||
          1 <<< (36 + toggle_shift side 9 + m / 9)).testBit j
          = (share ||| 1 <<< (m - 63 + toggle_shift side 18)).testBit j
       rw [Nat.testBit_or (share ||| 1 <<< (m - 63 + toggle_shift side 18)),
         Nat.one_shiftLeft (36 + toggle_shift side 9 + m / 9),
         Nat.testBit_two_pow_of_ne (show 36 + toggle_shift side 9 + m / 9 ≠ j by omega)]
       exact Bool.or_false _)

/-!
## Claim C7
-/

/-- Claim C7: applying a generated move adds exactly one cell to the
moving side's count and leaves the opponent's count unchanged. The only
board invariant needed is the next-zone one (`hz`); the freshness of the
placed cell comes from the generator itself. -/
theorem claimC7_occupancy (us them share : Nat) (side : Bool) (m : Nat)
    (hz : (share >>> 54) &&& 0b1111 ≤ 9)
    (hm : m ∈ generate_moves (us, them, share)) :
    ((if side then o_cell_count else x_cell_count) (play_move (us, them, share) m side)
      = (if side then o_cell_count else x_cell_count) ((us, them, share) : Board) + 1) ∧
    ((if side then x_cell_count else o_cell_count) (play_move (us, them, share) m side)
      = (if side then x_cell_count else o_cell_count) ((us, them, share) : Board)) := by
  rcases mem_generate_moves_cases us them share m hz hm with
    ⟨hlt, hfree⟩ | ⟨hge, hlt81, hfree⟩
  · -- zones 0..6: the cell bit goes into `us` or `them`
    have h62 : ¬ 62 < m := by omega
    rw [Nat.testBit_or, Bool.or_eq_false_iff] at hfree
    obtain ⟨hus, hthem⟩ := hfree
    have hsh : ∀ j, j < 36 →
        ((play_move (us, them, share) m side).2.2).testBit j = share.testBit j :=
      fun j hj => play_move_share_testBit_lo us them share m side j hj h62
    have hfst := play_move_fst us them share m side
    have hsnd := play_move_snd us them share m side
    rw [if_neg h62] at hfst hsnd
    cases side
    · simp at hfst hsnd
      constructor
      · show x_cell_count (play_move (us, them, share) m false)
          = x_cell_count (us, them, share) + 1
        simp only [x_cell_count]
        rw [hfst, sum_toNat_congr share _ 18 (fun i hi => hsh i (by omega)),
          sum_toNat_or_pow us m 64 (by omega) hus]
        omega
      · show o_cell_count (play_move (us, them, share) m false)
          = o_cell_count (us, them, share)
        simp only [o_cell_count]
        rw [hsnd, sum_toNat_congr_off share _ 18 18 (fun i hi => hsh (18 + i) (by omega))]
    · simp at hfst hsnd
      constructor
      · show o_cell_count (play_move (us, them, share) m true)
          = o_cell_count (us, them, share) + 1
        simp only [o_cell_count]
        rw [hsnd, sum_toNat_congr_off share _ 18 18 (fun i hi => hsh (18 + i) (by omega)),
          sum_toNat_or_pow them m 64 (by omega) hthem]
        omega
      · show x_cell_count (play_move (us, them, share) m true)
          = x_cell_count (us, them, share)
        simp only [x_cell_count]
        rw [hfst, sum_toNat_congr share _ 18 (fun i hi => hsh i (by omega))]
  · -- zones 7..8: the cell bit goes into a `share` half
    have h62 : 62 < m := by omega
    rw [Nat.testBit_or, Nat.testBit_shiftRight, Bool.or_eq_false_iff] at hfree
    obtain ⟨h18, h0⟩ := hfree
    have hfst := play_move_fst us them share m side
    have hsnd := play_move_snd us them share m side
    rw [if_pos h62] at hfst hsnd
    cases side
    · have hsh2 : ∀ j, j < 36 →
          ((play_move (us, them, share) m false).2.2).testBit j =
            (share ||| 1 <<< (m - 63)).testBit j :=
        fun j hj => play_move_share_testBit_hi us them share m false j hj h62
      constructor
      · show x_cell_count (play_move (us, them, share) m false)
          = x_cell_count (us, them, share) + 1
        simp only [x_cell_count]
        rw [hfst, sum_toNat_congr (share ||| 1 <<< (m - 63)) _ 18
            (fun i hi => hsh2 i (by omega)),
          sum_toNat_or_pow share (m - 63) 18 (by omega) h0]
        omega
      · show o_cell_count (play_move (us, them, share) m false)
          = o_cell_count (us, them, share)
        simp only [o_cell_count]
        rw [hsnd, sum_toNat_congr_off (share ||| 1 <<< (m - 63)) _ 18 18
            (fun i hi => hsh2 (18 + i) (by omega)),
          sum_toNat_congr_off share (share ||| 1 <<< (m - 63)) 18 18
            (fun i hi => by
              rw [Nat.one_shiftLeft, Nat.testBit_or,
                Nat.testBit_two_pow_of_ne (by omega)]
              exact Bool.or_false _)]
    · have hsh2 : ∀ j, j < 36 →
          ((play_move (us, them, share) m true).2.2).testBit j =
            (share ||| 1 <<< (m - 63 + 18)).testBit j :=
        fun j hj => play_move_share_testBit_hi us them share m true j hj h62
      have hpos : m - 63 + 18 = 18 + (m - 63) := by omega
      rw [hpos] at hsh2
      constructor
      · show o_cell_count (play_move (us, them, share) m true)
          = o_cell_count (us, them, share) + 1
        simp only [o_cell_count]
        rw [hsnd, sum_toNat_congr_off (share ||| 1 <<< (18 + (m - 63))) _ 18 18
            (fun i hi => hsh2 (18 + i) (by omega)),
          sum_toNat_or_pow_off share (m - 63) 18 18 (by omega) h18]
        omega
      · show x_cell_count (play_move (us, them, share) m true)
          = x_cell_count (us, them, share)
        simp only [x_cell_count]
        rw [hfst, sum_toNat_congr (share ||| 1 <<< (18 + (m - 63))) _ 18
            (fun i hi => hsh2 i (by omega)),
          sum_toNat_congr share (share ||| 1 <<< (18 + (m - 63))) 18
            (fun i hi => by
              rw [Nat.one_shiftLeft, Nat.testBit_or,
                Nat.testBit_two_pow_of_ne (by omega)]
              exact Bool.or_false _)]

/-- Witness for claim C7: the first move on the empty board adds one X
cell and no O cell. -/
theorem claimC7_witness :
    ((((9 <<< 54 : Nat)) >>> 54) &&& 0b1111 ≤ 9) ∧
    0 ∈ generate_moves ((0, 0, 9 <<< 54) : Board) ∧
    x_cell_count (play_move ((0, 0, 9 <<< 54) : Board) 0 false)
      = x_cell_count ((0, 0, 9 <<< 54) : Board) + 1 ∧
    o_cell_count (play_move ((0, 0, 9 <<< 54) : Board) 0 false)
      = o_cell_count ((0, 0, 9 <<< 54) : Board) :=
  ⟨by decide, by decide,
    (claimC7_occupancy 0 0 (9 <<< 54) false 0 (by decide) (by decide)).1,
    (claimC7_occupancy 0 0 (9 <<< 54) false 0 (by decide) (by decide)).2⟩

/-!
## Claim C9
-/

lemma abs_toggle_eval (side : Bool) (x : Int) : |toggle_eval side x| = |x| := by
  cases side <;> simp [toggle_eval]

lemma foldl_add_eq (l : List Int) (a : Int) : l.foldl (· + ·) a = a + l.sum := by
  induction l generalizing a with
  | nil => simp
  | cons x xs ih =>
    rw [List.foldl_cons, List.sum_cons, ih (a + x)]
    ring

lemma abs_list_sum_le (l : List Int) (c : Int) (h : ∀ x ∈ l, |x| ≤ c) :
    |l.sum| ≤ c * (l.length : Int) := by
  induction l with
  | nil => simp
  | cons x xs ih =>
    have hx := h x (List.mem_cons_self _ _)
    have hxs := ih fun y hy => h y (List.mem_cons_of_mem _ hy)
    rw [List.sum_cons, List.length_cons]
    have habs := abs_add x xs.sum
    have hcast : ((xs.length + 1 : Nat) : Int) = (xs.length : Int) + 1 := by
      push_cast
      ring
    rw [hcast]
    have : c * ((xs.length : Int) + 1) = c * (xs.length : Int) + c := by ring
    rw [this]
    linarith

/-- The large table entry looked up by `evaluate` is at most 2145 in
magnitude whenever it is not the win/loss sentinel. -/
lemma EVAL_LARGE_bound (idx : Nat) (hidx : idx < 2 ^ 18)
    (hw : EVAL_LARGE idx ≠ OUTCOME_WIN) (hl : EVAL_LARGE idx ≠ OUTCOME_LOSS) :
    |EVAL_LARGE idx| ≤ 2145 := by
  have h1 : idx &&& 511 < 512 := lt_of_le_of_lt Nat.and_le_right (by norm_num)
  have h2 : idx >>> 9 < 512 := by
    rw [Nat.shiftRight_eq_div_pow]
    omega
  exact entry_large_bound _ _ h1 h2 hw hl

/-- The small table entry looked up by `evaluate` for a zone is at most
121 in magnitude. -/
lemma EVAL_SMALL_zone_bound (u9 t9 : Nat) (hu : u9 < 512) (ht : t9 < 512) :
    |EVAL_SMALL ((t9 <<< 9) ||| u9)| ≤ 121 := by
  rw [EVAL_SMALL_at u9 t9 hu]
  exact entry_small_bound u9 t9 hu ht

/-- Claim C9: when the meta grid is neither won nor full (the
zone-summing path of `evaluate`), the score is strictly inside
`±(OUTCOME_WIN - MAX_PLY)`. -/
theorem claimC9_eval_bound (us them share : Nat) (side : Bool)
    (hw : EVAL_LARGE ((share >>> 36) &&& DBLCHUNK) ≠ OUTCOME_WIN)
    (hl : EVAL_LARGE ((share >>> 36) &&& DBLCHUNK) ≠ OUTCOME_LOSS)
    (hf : ((share >>> 36) ||| (share >>> 45)) &&& CHUNK ≠ CHUNK) :
    |evaluate (us, them, share) side| < OUTCOME_WIN - (MAX_PLY : Int) := by
  have hC9 : ∀ x : Nat, x &&& CHUNK < 512 := fun x =>
    lt_of_le_of_lt Nat.and_le_right (by norm_num [CHUNK])
  have hidx : (share >>> 36) &&& DBLCHUNK < 2 ^ 18 := by
    have h1 : (share >>> 36) &&& DBLCHUNK ≤ DBLCHUNK := Nat.and_le_right
    have h2 : DBLCHUNK = 262143 := by decide
    omega
  have hev := EVAL_LARGE_bound _ hidx hw hl
  simp only [evaluate]
  rw [if_neg (show ¬(EVAL_LARGE ((share >>> 36) &&& DBLCHUNK) = OUTCOME_WIN ∨
      EVAL_LARGE ((share >>> 36) &&& DBLCHUNK) = OUTCOME_LOSS) from by tauto)]
  rw [if_neg hf, abs_toggle_eval, foldl_add_eq]
  have helems : ∀ x ∈ (((List.range 7).map fun i =>
        if (((((share >>> 36) ||| (share >>> 45)) &&& CHUNK) >>> i) &&& 1) = 1 ∨
            ((((us >>> (9 * i)) &&& CHUNK) ||| ((them >>> (9 * i)) &&& CHUNK)) = CHUNK)
        then 0
        else EVAL_SMALL ((((them >>> (9 * i)) &&& CHUNK) <<< 9) |||
          ((us >>> (9 * i)) &&& CHUNK)))
      ++ ((List.range 2).map fun j =>
        if (((((share >>> 36) ||| (share >>> 45)) &&& CHUNK) >>> (j + 7)) &&& 1) = 1 ∨
            ((((share >>> (9 * (j + 7) - 63)) &&& CHUNK) |||
              ((share >>> (9 * (j + 7) - 45)) &&& CHUNK)) = CHUNK)
        then 0
        else EVAL_SMALL ((((share >>> (9 * (j + 7) - 45)) &&& CHUNK) <<< 9) |||
          ((share >>> (9 * (j + 7) - 63)) &&& CHUNK)))), |x| ≤ 121 := by
    intro x hx
    rcases List.mem_append.mp hx with h | h <;> obtain ⟨i, hi, rfl⟩ := List.mem_map.mp h
    · split
      · norm_num
      · exact EVAL_SMALL_zone_bound _ _ (hC9 _) (hC9 _)
    · split
      · norm_num
      · exact EVAL_SMALL_zone_bound _ _ (hC9 _) (hC9 _)
  have hsum := abs_list_sum_le _ 121 helems
  have hlen : ((((List.range 7).map fun i =>
        if (((((share >>> 36) ||| (share >>> 45)) &&& CHUNK) >>> i) &&& 1) = 1 ∨
            ((((us >>> (9 * i)) &&& CHUNK) ||| ((them >>> (9 * i)) &&& CHUNK)) = CHUNK)
        then 0
        else EVAL_SMALL ((((them >>> (9 * i)) &&& CHUNK) <<< 9) |||
          ((us >>> (9 * i)) &&& CHUNK)))
      ++ ((List.range 2).map fun j =>
        if (((((share >>> 36) ||| (share >>> 45)) &&& CHUNK) >>> (j + 7)) &&& 1) = 1 ∨
            ((((share >>> (9 * (j + 7) - 63)) &&& CHUNK) |||
              ((share >>> (9 * (j + 7) - 45)) &&& CHUNK)) = CHUNK)
        then 0
        else EVAL_SMALL ((((share >>> (9 * (j + 7) - 45)) &&& CHUNK) <<< 9) |||
          ((share >>> (9 * (j + 7) - 63)) &&& CHUNK)))).length : Int) = 9 := by
    simp
  rw [hlen] at hsum
  refine lt_of_le_of_lt (abs_add _ _) ?_
  have hval : OUTCOME_WIN - (MAX_PLY : Int) = 999919 := by
    norm_num [OUTCOME_WIN, MAX_PLY]
  rw [hval]
  linarith

/-- Witness for claim C9 on the empty board. -/
theorem claimC9_witness :
    EVAL_LARGE (((0 : Nat) >>> 36) &&& DBLCHUNK) ≠ OUTCOME_WIN ∧
    EVAL_LARGE (((0 : Nat) >>> 36) &&& DBLCHUNK) ≠ OUTCOME_LOSS ∧
    (((0 : Nat) >>> 36) ||| ((0 : Nat) >>> 45)) &&& CHUNK ≠ CHUNK ∧
    |evaluate ((0, 0, 0) : Board) false| < OUTCOME_WIN - (MAX_PLY : Int) :=
  ⟨by decide, by decide, by decide,
    claimC9_eval_bound 0 0 0 false (by decide) (by decide) (by decide)⟩

/-!
## Claim C6
-/

/-- Claim C6: for disjoint 9-bit grids `a`, `b`, the table entries at the
two mirrored indices are negatives of each other, in both tables. -/
theorem claimC6_table_antisym (a b : Nat) (ha : a < 512) (hb : b < 512)
    (hd : a &&& b = 0) :
    EVAL_LARGE ((a <<< 9) ||| b) = -EVAL_LARGE ((b <<< 9) ||| a) ∧
    EVAL_SMALL ((a <<< 9) ||| b) = -EVAL_SMALL ((b <<< 9) ||| a) := by
  rw [EVAL_LARGE_at b a hb, EVAL_LARGE_at a b ha,
    EVAL_SMALL_at b a hb, EVAL_SMALL_at a b ha]
  exact ⟨(tableEntry_antisym a b).1, (tableEntry_antisym a b).2⟩

/-- Witness for claim C6 at a pair of disjoint grids. -/
theorem claimC6_witness :
    (0b100 : Nat) < 512 ∧ (0b011 : Nat) < 512 ∧ (0b100 : Nat) &&& 0b011 = 0 ∧
    EVAL_LARGE ((0b100 <<< 9) ||| 0b011) = -EVAL_LARGE ((0b011 <<< 9) ||| 0b100) ∧
    EVAL_SMALL ((0b100 <<< 9) ||| 0b011) = -EVAL_SMALL ((0b011 <<< 9) ||| 0b100) :=
  ⟨by decide, by decide, by decide,
    (claimC6_table_antisym 0b100 0b011 (by decide) (by decide) (by decide)).1,
    (claimC6_table_antisym 0b100 0b011 (by decide) (by decide) (by decide)).2⟩

end UT3
